import Mathlib

/-!
Verification of the interrupt-driven serial driver `teensy3/serial1.c`
(single-UART ring-buffer transport).

The C globals are gathered into an explicit state record; machine integers
are modelled as `Nat` (indices stay far below `2^32`, so no wraparound
occurs on the modelled paths; the `uint8_t` slot type of the buffers is
modelled by storing values reduced `% 256`).  Writes to the UART data
register are modelled as an output log, and the hardware status flags
(`RDRF`, `TDRE`, `TC`) are inputs of the interrupt handler.  The code is
compiled with neither `SERIAL_9BIT_SUPPORT` (so `use9Bits = 0` and
`BUFTYPE` is `uint8_t`) nor `KINETISL`; the `KINETISK` pin macros apply
(RTS: assert writes 0, deassert writes 1; transmit pin: assert writes 1,
deassert writes 0).  The main interrupt handler is the non-FIFO variant;
the RX-drain section of the `HAS_KINETISK_UART0_FIFO` variant is modelled
separately as `uart0_status_isr_fifo_rx`.
-/

/-- `SERIAL1_TX_BUFFER_SIZE` (default, line 49). -/
def SERIAL1_TX_BUFFER_SIZE : Nat := 64

/-- `SERIAL1_RX_BUFFER_SIZE` (default, line 52). -/
def SERIAL1_RX_BUFFER_SIZE : Nat := 64

/-- `RTS_HIGH_WATERMARK = SERIAL1_RX_BUFFER_SIZE - 24` (line 54). -/
def RTS_HIGH_WATERMARK : Nat := SERIAL1_RX_BUFFER_SIZE - 24

/-- `RTS_LOW_WATERMARK = SERIAL1_RX_BUFFER_SIZE - 38` (line 55). -/
def RTS_LOW_WATERMARK : Nat := SERIAL1_RX_BUFFER_SIZE - 38

/-- UART C2 register bits (Kinetis). -/
def UART_C2_TIE : Nat := 0x80

/-- Transmit-complete interrupt enable bit. -/
def UART_C2_TCIE : Nat := 0x40

/-- Receiver interrupt enable bit. -/
def UART_C2_RIE : Nat := 0x20

/-- Transmitter enable bit. -/
def UART_C2_TE : Nat := 0x08

/-- Receiver enable bit. -/
def UART_C2_RE : Nat := 0x04

/-- `C2_ENABLE = UART_C2_TE | UART_C2_RE | UART_C2_RIE` (non-FIFO variant, line 131). -/
def C2_ENABLE : Nat := UART_C2_TE ||| UART_C2_RE ||| UART_C2_RIE

/-- `C2_TX_ACTIVE = C2_ENABLE | UART_C2_TIE` (line 133). -/
def C2_TX_ACTIVE : Nat := C2_ENABLE ||| UART_C2_TIE

/-- `C2_TX_COMPLETING = C2_ENABLE | UART_C2_TCIE` (line 134). -/
def C2_TX_COMPLETING : Nat := C2_ENABLE ||| UART_C2_TCIE

/-- `C2_TX_INACTIVE = C2_ENABLE` (line 135). -/
def C2_TX_INACTIVE : Nat := C2_ENABLE

/-- One ring buffer: the fixed base array (`tx_buffer` / `rx_buffer`), the
optional extension array (`tx_buffer_storage_` / `rx_buffer_storage_`,
modelled as a total function, read only below the installed length), the
head and tail indices, and the total size (`.._total_size_`).  A NULL
extension pointer is modelled by the all-zero function; it is never read
when `total` equals the base capacity, mirroring the C code where indices
never reach the extension in that case. -/
structure RingBuf where
  base : Nat → Nat
  ext : Nat → Nat
  head : Nat
  tail : Nat
  total : Nat

/-- The split-addressing read: an index below the base capacity `cap` reads
the base array, any larger index reads `ext[index - cap]` (lines 446-450,
558-561, 676-679, 697-700, 714-717). -/
def ringGet (cap : Nat) (r : RingBuf) (i : Nat) : Nat :=
  if i < cap then r.base i else r.ext (i - cap)

/-- The split-addressing write; the `uint8_t` slot type truncates the
stored value to 8 bits. -/
def ringSet (cap : Nat) (r : RingBuf) (i v : Nat) : RingBuf :=
  if i < cap then
    { r with base := fun j => if j = i then v % 256 else r.base j }
  else
    { r with ext := fun j => if j = i - cap then v % 256 else r.ext j }

/-- The index-increment idiom `if (++x >= total) x = 0;` used throughout
the C file for both heads and tails. -/
def wrapInc (i total : Nat) : Nat :=
  if i + 1 ≥ total then 0 else i + 1

/-- The driver state: all file-scope globals of `serial1.c` that the
verified operations touch, plus the output log of writes to `UART0_D`
performed by the transmit path. -/
structure SerialState where
  sim_scgc4_uart0 : Bool
  transmitting : Bool
  transmit_pin : Bool
  transmit_pin_level : Nat
  rts_pin : Bool
  rts_level : Nat
  rts_low_watermark : Nat
  rts_high_watermark : Nat
  uart0_c2 : Nat
  uart0_d_log : List Nat
  txRing : RingBuf
  rxRing : RingBuf

/-- `serial_putchar` (lines 422-467), restricted to the paths the claims
quantify over: returns `none` when the call would enter the blocking
drain loop (TX ring full), i.e. when the claims' precondition that at
most `total_capacity - 1` units are ever pending is violated.  With the
clock gate off it returns the state unchanged (line 426). -/
def serial_putchar (s : SerialState) (c : Nat) : Option SerialState :=
  if s.sim_scgc4_uart0 = false then some s else
  let s1 := if s.transmit_pin then { s with transmit_pin_level := 1 } else s
  let head := wrapInc s1.txRing.head s1.txRing.total
  if s1.txRing.tail = head then none
  else
    some { s1 with
      txRing := { ringSet SERIAL1_TX_BUFFER_SIZE s1.txRing head c with head := head }
      transmitting := true
      uart0_c2 := C2_TX_ACTIVE }

/-- `serial_write` (non-FIFO variant, lines 515-519): puts each byte of
the buffer through `serial_putchar`. -/
def serial_write (s : SerialState) : List Nat → Option SerialState
  | [] => some s
  | b :: rest => (serial_putchar s b).bind fun s1 => serial_write s1 rest

/-- `serial_write_buffer_free` (lines 527-535). -/
def serial_write_buffer_free (s : SerialState) : Nat :=
  if s.txRing.head ≥ s.txRing.tail then
    s.txRing.total - 1 - s.txRing.head + s.txRing.tail
  else
    s.txRing.tail - s.txRing.head - 1

/-- `serial_available` (lines 538-546). -/
def serial_available (s : SerialState) : Nat :=
  if s.rxRing.head ≥ s.rxRing.tail then
    s.rxRing.head - s.rxRing.tail
  else
    s.rxRing.total + s.rxRing.head - s.rxRing.tail

/-- `serial_getchar` (lines 549-571): returns the popped value (or `-1`
on an empty ring) and the new state.  On a successful pop with an RTS pin
configured, asserts RTS (writes 0, KINETISK) when the recomputed
occupancy has fallen to or below the low watermark. -/
def serial_getchar (s : SerialState) : Int × SerialState :=
  let head := s.rxRing.head
  let tail := s.rxRing.tail
  if head = tail then (-1, s)
  else
    let tail := wrapInc tail s.rxRing.total
    let c := ringGet SERIAL1_RX_BUFFER_SIZE s.rxRing tail
    let s1 := { s with rxRing := { s.rxRing with tail := tail } }
    let s2 :=
      if s1.rts_pin then
        let avail := if head ≥ tail then head - tail else s1.rxRing.total + head - tail
        if avail ≤ s1.rts_low_watermark then { s1 with rts_level := 0 } else s1
      else s1
    (Int.ofNat c, s2)

/-- `serial_clear` (non-FIFO variant, lines 587-597): sets the RX head to
the RX tail and, if an RTS pin is configured, asserts RTS. -/
def serial_clear (s : SerialState) : SerialState :=
  let s1 := { s with rxRing := { s.rxRing with head := s.rxRing.tail } }
  if s1.rts_pin then { s1 with rts_level := 0 } else s1

/-- `uart0_status_isr` (non-FIFO variant, lines 688-738).  The hardware
status flags `UART_S1_RDRF`, `UART_S1_TDRE`, `UART_S1_TC` and the value
read from `UART0_D` on a receive event are inputs.  `UART0_C2` is read
once, before the transmit branch, exactly as in the C code (line 706). -/
def uart0_status_isr (s : SerialState) (rdrf tdre tc : Bool) (d_in : Nat) :
    SerialState :=
  let s1 :=
    if rdrf then
      let n := d_in
      let head := wrapInc s.rxRing.head s.rxRing.total
      if head ≠ s.rxRing.tail then
        { s with rxRing :=
            { ringSet SERIAL1_RX_BUFFER_SIZE s.rxRing head n with head := head } }
      else s
    else s
  let c := s1.uart0_c2
  let s2 :=
    if c &&& UART_C2_TIE ≠ 0 ∧ tdre = true then
      let head := s1.txRing.head
      let tail := s1.txRing.tail
      if head = tail then { s1 with uart0_c2 := C2_TX_COMPLETING }
      else
        let tail := wrapInc tail s1.txRing.total
        let n := ringGet SERIAL1_TX_BUFFER_SIZE s1.txRing tail
        { s1 with
          uart0_d_log := s1.uart0_d_log ++ [n]
          txRing := { s1.txRing with tail := tail } }
    else s1
  if c &&& UART_C2_TCIE ≠ 0 ∧ tc = true then
    let s3 := { s2 with transmitting := false }
    let s4 := if s3.transmit_pin then { s3 with transmit_pin_level := 0 } else s3
    { s4 with uart0_c2 := C2_TX_INACTIVE }
  else s2

/-- The drain loop of the `HAS_KINETISK_UART0_FIFO` receive branch
(lines 642-658): `tail` is the value captured at entry, `head` is the
local head variable; each hardware-buffered unit is stored at the
advanced head unless that would collide with the captured tail, in which
case the unit is dropped and the head stays. -/
def rxFifoDrain (tail : Nat) (r : RingBuf) (head : Nat) : List Nat → RingBuf × Nat
  | [] => (r, head)
  | n :: rest =>
    let newhead := wrapInc head r.total
    if newhead ≠ tail then
      rxFifoDrain tail (ringSet SERIAL1_RX_BUFFER_SIZE r newhead n) newhead rest
    else
      rxFifoDrain tail r head rest

/-- The receive section of the FIFO-variant interrupt handler
(lines 640-666): read head and tail, drain all available units, write the
head back, then deassert RTS (write 1, KINETISK) when the resulting
occupancy meets or exceeds the high watermark. -/
def uart0_status_isr_fifo_rx (s : SerialState) (units : List Nat) : SerialState :=
  let head := s.rxRing.head
  let tail := s.rxRing.tail
  let p := rxFifoDrain tail s.rxRing head units
  let s1 := { s with rxRing := { p.1 with head := p.2 } }
  if s1.rts_pin then
    let avail := if p.2 ≥ tail then p.2 - tail else s1.rxRing.total + p.2 - tail
    if avail ≥ s1.rts_high_watermark then { s1 with rts_level := 1 } else s1
  else s1

/-- `serial_add_memory_for_read` (lines 782-793): stores the extension
pointer, sets the total size to base + length only when the pointer is
non-null, and unconditionally sets both RTS watermarks to base + length. -/
def serial_add_memory_for_read (s : SerialState) (buffer : Option (Nat → Nat))
    (length : Nat) : SerialState :=
  let ext := match buffer with
    | some b => b
    | none => fun _ => 0
  let total := match buffer with
    | some _ => SERIAL1_RX_BUFFER_SIZE + length
    | none => SERIAL1_RX_BUFFER_SIZE
  { s with
    rxRing := { s.rxRing with ext := ext, total := total }
    rts_low_watermark := RTS_LOW_WATERMARK + length
    rts_high_watermark := RTS_HIGH_WATERMARK + length }

/-- `serial_print` (lines 743-750): walks the string until the
terminating NUL, sending a carriage return before every newline. -/
def serial_print (s : SerialState) : List Nat → Option SerialState
  | [] => some s
  | c :: rest =>
    if c = 0 then some s
    else if c = 10 then
      (serial_putchar s 13).bind fun s1 =>
        (serial_putchar s1 c).bind fun s2 => serial_print s2 rest
    else
      (serial_putchar s c).bind fun s1 => serial_print s1 rest

/-- Modelled from the spec (refinement reference for C10): the expansion
of the characters of a NUL-terminated string with a carriage return
inserted before every newline, cut at the first NUL. -/
def crlfExpand : List Nat → List Nat
  | [] => []
  | c :: rest =>
    if c = 0 then []
    else if c = 10 then 13 :: 10 :: crlfExpand rest
    else c :: crlfExpand rest

/-- Occupancy of a ring expressed as in the claims:
`(head - tail) mod total`, computed in `Nat` as
`(total + head - tail) % total` (equal to the signed expression whenever
`head, tail < total`). -/
def occupiedCount (head tail total : Nat) : Nat :=
  (total + head - tail) % total

/-- Driver operations for whole-trace statements: an application push into
the TX ring (`serial_putchar`), a transmit-ready interrupt, a
receive-ready interrupt carrying the byte read from the data register,
and an application `serial_getchar`. -/
inductive Op where
  | push (c : Nat)
  | txIrq
  | rxIrq (n : Nat)
  | getc
  deriving DecidableEq

/-- A push or a received unit carries a byte (the buffers hold `uint8_t`). -/
def OpValid : Op → Prop
  | .push c => c < 256
  | .rxIrq n => n < 256
  | _ => True

instance : DecidablePred OpValid := fun op =>
  match op with
  | .push c => inferInstanceAs (Decidable (c < 256))
  | .txIrq => inferInstanceAs (Decidable True)
  | .rxIrq n => inferInstanceAs (Decidable (n < 256))
  | .getc => inferInstanceAs (Decidable True)

/-- The device state together with the log of values returned by
successful `serial_getchar` calls. -/
structure RunState where
  dev : SerialState
  got : List Nat

/-- One driver operation.  A `push` fails (`none`) exactly when
`serial_putchar` would enter its blocking loop, and an `rxIrq` fails when
the RX ring is full — both cases are excluded by the FIFO-law premise
that at most `total_capacity - 1` units are ever pending; the interrupt
handler itself would silently drop the unit. -/
def stepOp (r : RunState) : Op → Option RunState
  | .push c => (serial_putchar r.dev c).map fun d => { r with dev := d }
  | .txIrq => some { r with dev := uart0_status_isr r.dev false true false 0 }
  | .rxIrq n =>
    if wrapInc r.dev.rxRing.head r.dev.rxRing.total = r.dev.rxRing.tail then none
    else some { r with dev := uart0_status_isr r.dev true false false n }
  | .getc =>
    let p := serial_getchar r.dev
    some { dev := p.2, got := if p.1 = -1 then r.got else r.got ++ [p.1.toNat] }

/-- Run a list of driver operations. -/
def runOps : List Op → RunState → Option RunState
  | [], r => some r
  | op :: rest, r => (stepOp r op).bind fun r1 => runOps rest r1

/-- The bytes the application pushed into the TX ring, in order. -/
def txBytes : List Op → List Nat
  | [] => []
  | .push c :: rest => c :: txBytes rest
  | _ :: rest => txBytes rest

/-- The bytes the receive interrupts delivered, in order. -/
def rxBytes : List Op → List Nat
  | [] => []
  | .rxIrq n :: rest => n :: rxBytes rest
  | _ :: rest => rxBytes rest

/-- The state right after `serial_begin` with an optional TX extension of
length `txL` and an optional RX extension of length `rxL` installed
(length 0 stands for no extension: the total size is then the base
capacity and the extension is never addressed). -/
def initRun (txL rxL : Nat) (txe rxe : Nat → Nat) : RunState :=
  { dev :=
    { sim_scgc4_uart0 := true
      transmitting := false
      transmit_pin := false
      transmit_pin_level := 0
      rts_pin := false
      rts_level := 1
      rts_low_watermark := RTS_LOW_WATERMARK + rxL
      rts_high_watermark := RTS_HIGH_WATERMARK + rxL
      uart0_c2 := C2_TX_INACTIVE
      uart0_d_log := []
      txRing := { base := fun _ => 0, ext := txe, head := 0, tail := 0,
                  total := SERIAL1_TX_BUFFER_SIZE + txL }
      rxRing := { base := fun _ => 0, ext := rxe, head := 0, tail := 0,
                  total := SERIAL1_RX_BUFFER_SIZE + rxL } }
    got := [] }

/-- The ring `r` holds exactly the queue `q`: indices are in range, the
head is the tail advanced by the queue length (modulo the total size),
and slot `tail + 1 + i` holds the `i`-th queued unit. -/
def RingQueue (cap : Nat) (r : RingBuf) (q : List Nat) : Prop :=
  r.head < r.total ∧ r.tail < r.total ∧ q.length < r.total ∧
  r.head = (r.tail + q.length) % r.total ∧
  ∀ i : Nat, ∀ h : i < q.length,
    q.get ⟨i, h⟩ = ringGet cap r ((r.tail + 1 + i) % r.total)

/-- A concrete example state used by the closed counterexample and
witness theorems: clock on, RTS pin configured and currently deasserted,
RX ring holding three bytes 17, 23, 42 at slots 1, 2, 3 (head 3, tail 0),
TX ring empty, no extensions. -/
def exState : SerialState :=
  { sim_scgc4_uart0 := true
    transmitting := false
    transmit_pin := false
    transmit_pin_level := 0
    rts_pin := true
    rts_level := 1
    rts_low_watermark := RTS_LOW_WATERMARK
    rts_high_watermark := RTS_HIGH_WATERMARK
    uart0_c2 := C2_TX_INACTIVE
    uart0_d_log := []
    txRing := { base := fun _ => 0, ext := fun _ => 0, head := 0, tail := 0,
                total := SERIAL1_TX_BUFFER_SIZE }
    rxRing := { base := fun j => if j = 1 then 17 else if j = 2 then 23 else
                  if j = 3 then 42 else 0,
                ext := fun _ => 0, head := 3, tail := 0,
                total := SERIAL1_RX_BUFFER_SIZE } }

/-- The all-zero storage function (models a NULL or unused extension). -/
def zeroFn : Nat → Nat := fun _ => 0

/-- A concrete operation sequence exercising both rings. -/
def fifoOps : List Op :=
  [Op.push 65, Op.push 66, Op.txIrq, Op.rxIrq 67, Op.getc, Op.txIrq]

/-- `exState` with an empty RX ring (head = tail = 0). -/
def exEmpty : SerialState :=
  { exState with rxRing := { exState.rxRing with head := 0 } }

/-- `exState` with a full RX ring (head 63, tail 0, total 64). -/
def exFull : SerialState :=
  { exState with rxRing := { exState.rxRing with head := 63 } }

/-- `exState` with the UART0 clock gate off. -/
def exOff : SerialState :=
  { exState with sim_scgc4_uart0 := false }

/-- `exState` in the Active interrupt state with one pending TX byte 65
at slot 1 (head 1, tail 0). -/
def exActive : SerialState :=
  { exState with
    uart0_c2 := C2_TX_ACTIVE
    txRing :=
      { base := fun j => if j = 1 then 65 else 0
        ext := zeroFn
        head := 1
        tail := 0
        total := SERIAL1_TX_BUFFER_SIZE } }

/-- `exState` in the Active interrupt state with an empty TX ring. -/
def exActiveEmpty : SerialState :=
  { exState with uart0_c2 := C2_TX_ACTIVE }

/-- `exState` in the Completing interrupt state, transmit pin configured
and currently asserted. -/
def exCompleting : SerialState :=
  { exState with
    uart0_c2 := C2_TX_COMPLETING
    transmitting := true
    transmit_pin := true
    transmit_pin_level := 1 }

/-! ### Generic ring-buffer lemmas -/

@[simp]
theorem ringSet_head (cap : Nat) (r : RingBuf) (i v : Nat) :
    (ringSet cap r i v).head = r.head := by
  unfold ringSet; split <;> rfl

@[simp]
theorem ringSet_tail (cap : Nat) (r : RingBuf) (i v : Nat) :
    (ringSet cap r i v).tail = r.tail := by
  unfold ringSet; split <;> rfl

@[simp]
theorem ringSet_total (cap : Nat) (r : RingBuf) (i v : Nat) :
    (ringSet cap r i v).total = r.total := by
  unfold ringSet; split <;> rfl

/-- The split addressing behaves as a single logical store: reading after
a write returns the written (truncated) value at the written index and
the old value elsewhere, for any base capacity. -/
theorem ringGet_ringSet (cap : Nat) (r : RingBuf) (i v j : Nat) :
    ringGet cap (ringSet cap r i v) j =
      if j = i then v % 256 else ringGet cap r j := by
  unfold ringGet ringSet
  by_cases hi : i < cap <;> by_cases hj : j < cap
  · simp only [if_pos hi, if_pos hj]
  · have hne : j ≠ i := by omega
    simp [hi, hj, hne]
  · have hne : j ≠ i := by omega
    simp [hi, hj, hne]
  · have hiff : j - cap = i - cap ↔ j = i := by omega
    simp only [if_neg hi, if_neg hj]
    by_cases he : j = i
    · simp [he, hiff.2 he]
    · have hne2 : j - cap ≠ i - cap := fun hc => he (hiff.1 hc)
      simp [he, hne2]

/-- Reading the ring produced by a store followed by a head update: the
head field is irrelevant to reads. -/
theorem ringGet_push (cap : Nat) (r : RingBuf) (i v hd j : Nat) :
    ringGet cap { ringSet cap r i v with head := hd } j =
      if j = i then v % 256 else ringGet cap r j := by
  have h1 : ringGet cap { ringSet cap r i v with head := hd } j
      = ringGet cap (ringSet cap r i v) j := rfl
  rw [h1, ringGet_ringSet]

/-- `ringGet` does not depend on the head field. -/
@[simp]
theorem ringGet_set_head (cap : Nat) (r : RingBuf) (h i : Nat) :
    ringGet cap { r with head := h } i = ringGet cap r i := rfl

/-- `ringGet` does not depend on the tail field. -/
@[simp]
theorem ringGet_set_tail (cap : Nat) (r : RingBuf) (t i : Nat) :
    ringGet cap { r with tail := t } i = ringGet cap r i := rfl

/-- The wrap-to-zero increment agrees with the modular increment on
in-range indices. -/
theorem wrapInc_eq_mod (i total : Nat) (h : i < total) :
    wrapInc i total = (i + 1) % total := by
  unfold wrapInc
  split
  · have he : i + 1 = total := by omega
    simp [he, Nat.mod_self]
  · exact (Nat.mod_eq_of_lt (by omega)).symm

/-- Advancing an in-range index by `n` modulo `total` returns to the index
itself exactly when `total` divides `n`. -/
theorem add_mod_eq_self_iff (tail n total : Nat) (h : tail < total) :
    (tail + n) % total = tail ↔ n % total = 0 := by
  constructor
  · intro he
    have h2 : tail + n ≡ tail + 0 [MOD total] := by
      unfold Nat.ModEq
      simpa [Nat.mod_eq_of_lt h] using he
    have h3 : n ≡ 0 [MOD total] := Nat.ModEq.add_left_cancel' tail h2
    simpa [Nat.ModEq] using h3
  · intro he
    conv_lhs => rw [Nat.add_mod, he]
    simp [Nat.mod_eq_of_lt h]

/-- Pushing into a non-full ring: the advanced head does not collide with
the tail, and the ring with the value stored at the advanced head holds
the queue extended by the (truncated) value. -/
theorem ringPush (cap : Nat) (r : RingBuf) (q : List Nat) (v : Nat)
    (hq : RingQueue cap r q) (hlen : q.length + 1 < r.total) :
    wrapInc r.head r.total ≠ r.tail ∧
    RingQueue cap
      { ringSet cap r (wrapInc r.head r.total) v with
          head := wrapInc r.head r.total }
      (q ++ [v % 256]) := by
  obtain ⟨hh, ht, hql, hhead, hcontent⟩ := hq
  have htot : 0 < r.total := Nat.lt_of_le_of_lt (Nat.zero_le _) hh
  have hwf : wrapInc r.head r.total = (r.tail + (q.length + 1)) % r.total := by
    rw [wrapInc_eq_mod _ _ hh, hhead, Nat.mod_add_mod, Nat.add_assoc]
  have hne : wrapInc r.head r.total ≠ r.tail := by
    rw [hwf]
    intro hcontra
    have hz := (add_mod_eq_self_iff r.tail (q.length + 1) r.total ht).1 hcontra
    rw [Nat.mod_eq_of_lt hlen] at hz
    omega
  refine ⟨hne, ?_, ?_, ?_, ?_, ?_⟩
  · show wrapInc r.head r.total < (ringSet cap r (wrapInc r.head r.total) v).total
    rw [ringSet_total, hwf]
    exact Nat.mod_lt _ htot
  · simpa using ht
  · simpa using hlen
  · simp only [ringSet_tail, ringSet_total, List.length_append, List.length_cons,
      List.length_nil]
    rw [hwf]
  · intro i hi
    simp only [List.length_append, List.length_cons, List.length_nil] at hi
    rw [List.get_eq_getElem]
    rw [ringGet_push]
    simp only [ringSet_tail, ringSet_total]
    by_cases hcase : i = q.length
    · have hidx : (r.tail + 1 + i) % r.total = wrapInc r.head r.total := by
        rw [hwf]
        congr 1
        omega
      rw [if_pos hidx]
      simp [hcase]
    · have hi2 : i < q.length := by omega
      have hidx : (r.tail + 1 + i) % r.total ≠ wrapInc r.head r.total := by
        rw [hwf]
        intro hcontra
        have h2 : r.tail + 1 + i ≡ r.tail + 1 + q.length [MOD r.total] := by
          unfold Nat.ModEq
          rw [hcontra]
          congr 1
          omega
        have h3 : i ≡ q.length [MOD r.total] :=
          Nat.ModEq.add_left_cancel' (r.tail + 1) h2
        unfold Nat.ModEq at h3
        rw [Nat.mod_eq_of_lt (by omega), Nat.mod_eq_of_lt (by omega)] at h3
        omega
      rw [if_neg hidx, List.getElem_append_left hi2]
      have := hcontent i hi2
      rw [List.get_eq_getElem] at this
      exact this

/-- Popping from a non-empty ring: the head and tail differ, the slot at
the advanced tail holds the queue's first element, and advancing the tail
leaves the ring holding the rest of the queue. -/
theorem ringPop (cap : Nat) (r : RingBuf) (x : Nat) (q : List Nat)
    (hq : RingQueue cap r (x :: q)) :
    r.head ≠ r.tail ∧
    ringGet cap r (wrapInc r.tail r.total) = x ∧
    RingQueue cap { r with tail := wrapInc r.tail r.total } q := by
  obtain ⟨hh, ht, hql, hhead, hcontent⟩ := hq
  have htot : 0 < r.total := Nat.lt_of_le_of_lt (Nat.zero_le _) hh
  simp only [List.length_cons] at hql hhead
  have hne : r.head ≠ r.tail := by
    rw [hhead]
    intro hcontra
    have hz := (add_mod_eq_self_iff r.tail (q.length + 1) r.total ht).1 hcontra
    rw [Nat.mod_eq_of_lt hql] at hz
    omega
  have hwt : wrapInc r.tail r.total = (r.tail + 1) % r.total := wrapInc_eq_mod _ _ ht
  have hval : ringGet cap r (wrapInc r.tail r.total) = x := by
    have h0 := hcontent 0 (by simp)
    simpa [hwt] using h0.symm
  refine ⟨hne, hval, ?_, ?_, ?_, ?_, ?_⟩
  · exact hh
  · show wrapInc r.tail r.total < r.total
    rw [hwt]; exact Nat.mod_lt _ htot
  · show q.length < r.total
    omega
  · show r.head = (wrapInc r.tail r.total + q.length) % r.total
    rw [hwt, hhead, Nat.mod_add_mod]
    congr 1
    omega
  · intro i hi
    have hcons := hcontent (i + 1) (by simp only [List.length_cons]; omega)
    rw [List.get_eq_getElem] at hcons ⊢
    simp only [List.getElem_cons_succ] at hcons
    rw [hcons]
    rw [ringGet_set_tail]
    have hidx : ((r.tail + 1) % r.total + 1 + i) % r.total
        = (r.tail + 1 + (i + 1)) % r.total := by
      rw [Nat.add_assoc, Nat.mod_add_mod]
      congr 1
      omega
    show ringGet cap r ((r.tail + 1 + (i + 1)) % r.total)
        = ringGet cap r ((wrapInc r.tail r.total + 1 + i) % r.total)
    rw [hwt, hidx]

/-- A ring holding queue `q` is empty (head equals tail) exactly when `q`
is the empty list. -/
theorem ringEmptyIff (cap : Nat) (r : RingBuf) (q : List Nat)
    (hq : RingQueue cap r q) : r.head = r.tail ↔ q = [] := by
  obtain ⟨hh, ht, hql, hhead, _⟩ := hq
  constructor
  · intro he
    rw [hhead] at he
    have hz := (add_mod_eq_self_iff r.tail q.length r.total ht).1 he
    rw [Nat.mod_eq_of_lt hql] at hz
    exact List.length_eq_zero.1 hz
  · intro he
    subst he
    rw [hhead]
    simpa using Nat.mod_eq_of_lt ht

/-- When the queue occupies all but the sacrificial slot, the advanced
head collides with the tail. -/
theorem ringFull_wrap (cap : Nat) (r : RingBuf) (q : List Nat)
    (hq : RingQueue cap r q) (hL : q.length + 1 = r.total) :
    wrapInc r.head r.total = r.tail := by
  obtain ⟨hh, ht, hql, hhead, _⟩ := hq
  rw [wrapInc_eq_mod _ _ hh, hhead, Nat.mod_add_mod]
  have h2 : r.tail + q.length + 1 = r.tail + r.total := by omega
  rw [h2, Nat.add_mod_right]
  exact Nat.mod_eq_of_lt ht

/-- A ring that is not full (advanced head differs from tail) has room:
its queue occupies strictly fewer than `total - 1` slots plus one. -/
theorem ringNotFull_len (cap : Nat) (r : RingBuf) (q : List Nat)
    (hq : RingQueue cap r q) (hne : wrapInc r.head r.total ≠ r.tail) :
    q.length + 1 < r.total := by
  by_contra hcon
  have hql := hq.2.2.1
  have hL : q.length + 1 = r.total := by omega
  exact hne (ringFull_wrap cap r q hq hL)

/-- A successful `serial_putchar` with the clock on appends the truncated
byte to the TX queue and touches neither the RX ring nor the data
register log. -/
theorem serial_putchar_some_spec (s : SerialState) (c : Nat) (q : List Nat)
    (s' : SerialState) (hclk : s.sim_scgc4_uart0 = true)
    (hq : RingQueue SERIAL1_TX_BUFFER_SIZE s.txRing q)
    (heq : serial_putchar s c = some s') :
    RingQueue SERIAL1_TX_BUFFER_SIZE s'.txRing (q ++ [c % 256]) ∧
    s'.rxRing = s.rxRing ∧
    s'.uart0_d_log = s.uart0_d_log ∧
    s'.sim_scgc4_uart0 = true := by
  have hcond : ¬ (s.sim_scgc4_uart0 = false) := by rw [hclk]; simp
  unfold serial_putchar at heq
  rw [if_neg hcond] at heq
  cases hpin : s.transmit_pin with
  | false =>
    simp only [hpin, Bool.false_eq_true, if_false] at heq
    split at heq
    · exact absurd heq (by simp)
    · rename_i hcond2
      have hne : wrapInc s.txRing.head s.txRing.total ≠ s.txRing.tail :=
        fun h => hcond2 h.symm
      have hlen := ringNotFull_len SERIAL1_TX_BUFFER_SIZE s.txRing q hq hne
      obtain ⟨-, hq2⟩ := ringPush SERIAL1_TX_BUFFER_SIZE s.txRing q c hq hlen
      injection heq with h
      subst h
      exact ⟨hq2, rfl, rfl, hclk⟩
  | true =>
    simp only [hpin, if_true] at heq
    split at heq
    · exact absurd heq (by simp)
    · rename_i hcond2
      have hne : wrapInc s.txRing.head s.txRing.total ≠ s.txRing.tail :=
        fun h => hcond2 h.symm
      have hlen := ringNotFull_len SERIAL1_TX_BUFFER_SIZE s.txRing q hq hne
      obtain ⟨-, hq2⟩ := ringPush SERIAL1_TX_BUFFER_SIZE s.txRing q c hq hlen
      injection heq with h
      subst h
      exact ⟨hq2, rfl, rfl, hclk⟩

/-- A transmit-ready interrupt (`RDRF`, `TC` clear): the handler pops at
most one unit from the TX ring into the data register, so the written log
extended by the remaining queue is unchanged; the RX ring is untouched. -/
theorem isr_txirq_spec (s : SerialState) (txq : List Nat)
    (htx : RingQueue SERIAL1_TX_BUFFER_SIZE s.txRing txq) :
    ∃ txq', RingQueue SERIAL1_TX_BUFFER_SIZE
        (uart0_status_isr s false true false 0).txRing txq' ∧
      (uart0_status_isr s false true false 0).uart0_d_log ++ txq' =
        s.uart0_d_log ++ txq ∧
      (uart0_status_isr s false true false 0).rxRing = s.rxRing ∧
      (uart0_status_isr s false true false 0).sim_scgc4_uart0 =
        s.sim_scgc4_uart0 := by
  unfold uart0_status_isr
  simp only [Bool.false_eq_true, and_false, if_false, eq_self_iff_true, and_true]
  by_cases hTIE : s.uart0_c2 &&& UART_C2_TIE ≠ 0
  · rw [if_pos hTIE]
    cases txq with
    | nil =>
      have hempty : s.txRing.head = s.txRing.tail :=
        (ringEmptyIff SERIAL1_TX_BUFFER_SIZE s.txRing [] htx).2 rfl
      rw [if_pos hempty]
      exact ⟨[], htx, rfl, rfl, rfl⟩
    | cons x rest =>
      obtain ⟨hne, hval, hq2⟩ := ringPop SERIAL1_TX_BUFFER_SIZE s.txRing x rest htx
      rw [if_neg hne]
      refine ⟨rest, hq2, ?_, rfl, rfl⟩
      show s.uart0_d_log ++
          [ringGet SERIAL1_TX_BUFFER_SIZE s.txRing
            (wrapInc s.txRing.tail s.txRing.total)] ++ rest =
        s.uart0_d_log ++ (x :: rest)
      rw [hval, List.append_assoc]
      rfl
  · rw [if_neg hTIE]
    exact ⟨txq, htx, rfl, rfl, rfl⟩

/-- A receive-ready interrupt (`TDRE`, `TC` clear) on a non-full RX ring
appends the truncated incoming byte to the RX queue; the TX ring and the
data register log are untouched. -/
theorem isr_rxirq_spec (s : SerialState) (n : Nat) (rxq : List Nat)
    (hrx : RingQueue SERIAL1_RX_BUFFER_SIZE s.rxRing rxq)
    (hne : wrapInc s.rxRing.head s.rxRing.total ≠ s.rxRing.tail) :
    RingQueue SERIAL1_RX_BUFFER_SIZE
      (uart0_status_isr s true false false n).rxRing (rxq ++ [n % 256]) ∧
    (uart0_status_isr s true false false n).txRing = s.txRing ∧
    (uart0_status_isr s true false false n).uart0_d_log = s.uart0_d_log ∧
    (uart0_status_isr s true false false n).sim_scgc4_uart0 =
      s.sim_scgc4_uart0 := by
  have hlen := ringNotFull_len SERIAL1_RX_BUFFER_SIZE s.rxRing rxq hrx hne
  obtain ⟨-, hq2⟩ := ringPush SERIAL1_RX_BUFFER_SIZE s.rxRing rxq n hrx hlen
  unfold uart0_status_isr
  simp only [Bool.false_eq_true, and_false, if_false, eq_self_iff_true, if_true]
  rw [if_pos hne]
  exact ⟨hq2, rfl, rfl, rfl⟩

/-- `serial_getchar` against the queue abstraction: on an empty queue it
returns `-1` and the unchanged state; on a non-empty queue it returns the
queue's first element and leaves the rest, touching neither the TX ring
nor the data register log. -/
theorem serial_getchar_queue_spec (s : SerialState) (rxq : List Nat)
    (hrx : RingQueue SERIAL1_RX_BUFFER_SIZE s.rxRing rxq) :
    (rxq = [] → serial_getchar s = (-1, s)) ∧
    (∀ x rest, rxq = x :: rest →
      (serial_getchar s).1 = Int.ofNat x ∧
      RingQueue SERIAL1_RX_BUFFER_SIZE (serial_getchar s).2.rxRing rest ∧
      (serial_getchar s).2.txRing = s.txRing ∧
      (serial_getchar s).2.uart0_d_log = s.uart0_d_log ∧
      (serial_getchar s).2.sim_scgc4_uart0 = s.sim_scgc4_uart0) := by
  constructor
  · intro hnil
    subst hnil
    have hempty : s.rxRing.head = s.rxRing.tail :=
      (ringEmptyIff SERIAL1_RX_BUFFER_SIZE s.rxRing [] hrx).2 rfl
    unfold serial_getchar
    rw [if_pos hempty]
  · intro x rest hcons
    subst hcons
    obtain ⟨hne, hval, hq2⟩ := ringPop SERIAL1_RX_BUFFER_SIZE s.rxRing x rest hrx
    unfold serial_getchar
    rw [if_neg hne]
    refine ⟨by simp [hval], ?_, ?_, ?_, ?_⟩
    · by_cases hpin : s.rts_pin = true
      · simp only [hpin, eq_self_iff_true, if_true]
        split <;> split <;> exact hq2
      · simp only [hpin, Bool.false_eq_true, if_false]
        exact hq2
    · by_cases hpin : s.rts_pin = true
      · simp only [hpin, eq_self_iff_true, if_true]
        split <;> split <;> rfl
      · simp only [hpin, Bool.false_eq_true, if_false]
    · by_cases hpin : s.rts_pin = true
      · simp only [hpin, eq_self_iff_true, if_true]
        split <;> split <;> rfl
      · simp only [hpin, Bool.false_eq_true, if_false]
    · by_cases hpin : s.rts_pin = true
      · simp only [hpin, eq_self_iff_true, if_true]
        split <;> split <;> rfl
      · simp only [hpin, Bool.false_eq_true, if_false]

/-- Trace invariant for `runOps`: along any successful run, the bytes
already written to the data register followed by the pending TX queue
equal the initial queue plus every pushed byte, and the bytes returned by
`serial_getchar` followed by the pending RX queue equal the initial queue
plus every received byte. -/
theorem runOps_spec (ops : List Op) :
    ∀ (r0 : RunState) (txq rxq : List Nat) (r : RunState),
      (∀ op ∈ ops, OpValid op) →
      r0.dev.sim_scgc4_uart0 = true →
      RingQueue SERIAL1_TX_BUFFER_SIZE r0.dev.txRing txq →
      RingQueue SERIAL1_RX_BUFFER_SIZE r0.dev.rxRing rxq →
      runOps ops r0 = some r →
      ∃ txq' rxq',
        RingQueue SERIAL1_TX_BUFFER_SIZE r.dev.txRing txq' ∧
        RingQueue SERIAL1_RX_BUFFER_SIZE r.dev.rxRing rxq' ∧
        r.dev.uart0_d_log ++ txq' = r0.dev.uart0_d_log ++ txq ++ txBytes ops ∧
        r.got ++ rxq' = r0.got ++ rxq ++ rxBytes ops := by
  induction ops with
  | nil =>
    intro r0 txq rxq r hv hclk htx hrx hrun
    simp only [runOps] at hrun
    injection hrun with h
    subst h
    exact ⟨txq, rxq, htx, hrx, by simp [txBytes], by simp [rxBytes]⟩
  | cons op rest ih =>
    intro r0 txq rxq r hv hclk htx hrx hrun
    simp only [runOps] at hrun
    obtain ⟨r1, hstep, hrest⟩ := Option.bind_eq_some.1 hrun
    have hvrest : ∀ o ∈ rest, OpValid o := fun o ho => hv o (List.mem_cons_of_mem _ ho)
    cases op with
    | push c =>
      simp only [stepOp] at hstep
      obtain ⟨d, hput, hr1⟩ := Option.map_eq_some'.1 hstep
      obtain ⟨hq2, hrx2, hdlog, hclk2⟩ :=
        serial_putchar_some_spec r0.dev c txq d hclk htx hput
      subst hr1
      have hvc : c < 256 := hv (.push c) (List.mem_cons_self _ _)
      have hrx3 : RingQueue SERIAL1_RX_BUFFER_SIZE d.rxRing rxq := by
        rw [hrx2]; exact hrx
      obtain ⟨txq', rxq', htxf, hrxf, hdf, hgf⟩ :=
        ih { r0 with dev := d } (txq ++ [c % 256]) rxq r hvrest hclk2 hq2 hrx3 hrest
      refine ⟨txq', rxq', htxf, hrxf, ?_, ?_⟩
      · have hdf2 : r.dev.uart0_d_log ++ txq' =
            d.uart0_d_log ++ (txq ++ [c % 256]) ++ txBytes rest := hdf
        rw [hdlog, Nat.mod_eq_of_lt hvc] at hdf2
        rw [hdf2]
        simp [txBytes, List.append_assoc]
      · have hgf2 : r.got ++ rxq' = r0.got ++ rxq ++ rxBytes rest := hgf
        rw [hgf2]
        simp [rxBytes]
    | txIrq =>
      simp only [stepOp] at hstep
      injection hstep with h1
      subst h1
      obtain ⟨txq2, htx2, hdlog2, hrxeq, hclkeq⟩ := isr_txirq_spec r0.dev txq htx
      have hclk2 : (uart0_status_isr r0.dev false true false 0).sim_scgc4_uart0
          = true := by rw [hclkeq]; exact hclk
      have hrx2 : RingQueue SERIAL1_RX_BUFFER_SIZE
          (uart0_status_isr r0.dev false true false 0).rxRing rxq := by
        rw [hrxeq]; exact hrx
      obtain ⟨txq', rxq', htxf, hrxf, hdf, hgf⟩ :=
        ih { r0 with dev := uart0_status_isr r0.dev false true false 0 }
          txq2 rxq r hvrest hclk2 htx2 hrx2 hrest
      refine ⟨txq', rxq', htxf, hrxf, ?_, ?_⟩
      · have hdf2 : r.dev.uart0_d_log ++ txq' =
            (uart0_status_isr r0.dev false true false 0).uart0_d_log ++ txq2
              ++ txBytes rest := hdf
        rw [hdlog2] at hdf2
        rw [hdf2]
        simp [txBytes]
      · have hgf2 : r.got ++ rxq' = r0.got ++ rxq ++ rxBytes rest := hgf
        rw [hgf2]
        simp [rxBytes]
    | rxIrq n =>
      simp only [stepOp] at hstep
      split at hstep
      · exact absurd hstep (by simp)
      · rename_i hguard
        injection hstep with h1
        subst h1
        obtain ⟨hq2, htxeq, hdeq, hclkeq⟩ := isr_rxirq_spec r0.dev n rxq hrx hguard
        have hvn : n < 256 := hv (.rxIrq n) (List.mem_cons_self _ _)
        have hclk2 : (uart0_status_isr r0.dev true false false n).sim_scgc4_uart0
            = true := by rw [hclkeq]; exact hclk
        have htx2 : RingQueue SERIAL1_TX_BUFFER_SIZE
            (uart0_status_isr r0.dev true false false n).txRing txq := by
          rw [htxeq]; exact htx
        obtain ⟨txq', rxq', htxf, hrxf, hdf, hgf⟩ :=
          ih { r0 with dev := uart0_status_isr r0.dev true false false n }
            txq (rxq ++ [n % 256]) r hvrest hclk2 htx2 hq2 hrest
        refine ⟨txq', rxq', htxf, hrxf, ?_, ?_⟩
        · have hdf2 : r.dev.uart0_d_log ++ txq' =
              (uart0_status_isr r0.dev true false false n).uart0_d_log ++ txq
                ++ txBytes rest := hdf
          rw [hdeq] at hdf2
          rw [hdf2]
          simp [txBytes]
        · have hgf2 : r.got ++ rxq' =
              r0.got ++ (rxq ++ [n % 256]) ++ rxBytes rest := hgf
          rw [Nat.mod_eq_of_lt hvn] at hgf2
          rw [hgf2]
          simp [rxBytes, List.append_assoc]
    | getc =>
      simp only [stepOp] at hstep
      injection hstep with h1
      subst h1
      obtain ⟨hemp, hcons⟩ := serial_getchar_queue_spec r0.dev rxq hrx
      cases rxq with
      | nil =>
        have he := hemp rfl
        have hdev : (serial_getchar r0.dev).2 = r0.dev := by rw [he]
        have hfst : (serial_getchar r0.dev).1 = -1 := by rw [he]
        have hclk2 : (serial_getchar r0.dev).2.sim_scgc4_uart0 = true := by
          rw [hdev]; exact hclk
        have htx2 : RingQueue SERIAL1_TX_BUFFER_SIZE
            (serial_getchar r0.dev).2.txRing txq := by rw [hdev]; exact htx
        have hrx2 : RingQueue SERIAL1_RX_BUFFER_SIZE
            (serial_getchar r0.dev).2.rxRing [] := by rw [hdev]; exact hrx
        have hgot : (if (serial_getchar r0.dev).1 = -1 then r0.got
            else r0.got ++ [(serial_getchar r0.dev).1.toNat]) = r0.got := by
          rw [if_pos hfst]
        obtain ⟨txq', rxq', htxf, hrxf, hdf, hgf⟩ :=
          ih ⟨(serial_getchar r0.dev).2,
              if (serial_getchar r0.dev).1 = -1 then r0.got
              else r0.got ++ [(serial_getchar r0.dev).1.toNat]⟩
            txq [] r hvrest hclk2 htx2 hrx2 hrest
        refine ⟨txq', rxq', htxf, hrxf, ?_, ?_⟩
        · have hdf2 : r.dev.uart0_d_log ++ txq' =
              (serial_getchar r0.dev).2.uart0_d_log ++ txq ++ txBytes rest := hdf
          rw [hdev] at hdf2
          rw [hdf2]
          simp [txBytes]
        · have hgf2 : r.got ++ rxq' =
              (if (serial_getchar r0.dev).1 = -1 then r0.got
                else r0.got ++ [(serial_getchar r0.dev).1.toNat])
                ++ [] ++ rxBytes rest := hgf
          rw [hgot] at hgf2
          rw [hgf2]
          simp [rxBytes]
      | cons x rest2 =>
        obtain ⟨hfst, hq2, htxeq, hdeq, hclkeq⟩ := hcons x rest2 rfl
        have hne : (serial_getchar r0.dev).1 ≠ -1 := by
          rw [hfst, Int.ofNat_eq_natCast]
          omega
        have hclk2 : (serial_getchar r0.dev).2.sim_scgc4_uart0 = true := by
          rw [hclkeq]; exact hclk
        have htx2 : RingQueue SERIAL1_TX_BUFFER_SIZE
            (serial_getchar r0.dev).2.txRing txq := by rw [htxeq]; exact htx
        have hgot : (if (serial_getchar r0.dev).1 = -1 then r0.got
            else r0.got ++ [(serial_getchar r0.dev).1.toNat]) = r0.got ++ [x] := by
          rw [if_neg hne, hfst]
          simp
        obtain ⟨txq', rxq', htxf, hrxf, hdf, hgf⟩ :=
          ih ⟨(serial_getchar r0.dev).2,
              if (serial_getchar r0.dev).1 = -1 then r0.got
              else r0.got ++ [(serial_getchar r0.dev).1.toNat]⟩
            txq rest2 r hvrest hclk2 htx2 hq2 hrest
        refine ⟨txq', rxq', htxf, hrxf, ?_, ?_⟩
        · have hdf2 : r.dev.uart0_d_log ++ txq' =
              (serial_getchar r0.dev).2.uart0_d_log ++ txq ++ txBytes rest := hdf
          rw [hdeq] at hdf2
          rw [hdf2]
          simp [txBytes]
        · have hgf2 : r.got ++ rxq' =
              (if (serial_getchar r0.dev).1 = -1 then r0.got
                else r0.got ++ [(serial_getchar r0.dev).1.toNat])
                ++ rest2 ++ rxBytes rest := hgf
          rw [hgot] at hgf2
          rw [hgf2]
          simp [rxBytes, List.append_assoc]

/-- C1: FIFO law for both rings, with or without an installed extension.
For every driver trace (pushes, interrupts, reads) in which at most
`total_capacity - 1` units are ever pending per ring — a run of the
harness that never blocks or drops — the sequence of bytes the interrupt
handler has written to the data register, followed by the bytes still
pending in the TX ring, equals the pushed sequence in order; and the
sequence of bytes returned by successive `serial_getchar` calls, followed
by the bytes still pending in the RX ring, equals the sequence the
interrupt handler pushed into the RX ring, in order.  The rings use the
split addressing rule (`ringGet`/`ringSet`): an index below the base
capacity addresses the base array, any larger index addresses
`extension_storage[index - base_capacity]`, wraparound included. -/
theorem serial_fifo_law (txL rxL : Nat) (txe rxe : Nat → Nat) (ops : List Op)
    (hv : ∀ op ∈ ops, OpValid op) :
    match runOps ops (initRun txL rxL txe rxe) with
    | none => True
    | some r => ∃ txq rxq,
        RingQueue SERIAL1_TX_BUFFER_SIZE r.dev.txRing txq ∧
        RingQueue SERIAL1_RX_BUFFER_SIZE r.dev.rxRing rxq ∧
        r.dev.uart0_d_log ++ txq = txBytes ops ∧
        r.got ++ rxq = rxBytes ops := by
  cases hrun : runOps ops (initRun txL rxL txe rxe) with
  | none => trivial
  | some r =>
    have htx0 : RingQueue SERIAL1_TX_BUFFER_SIZE
        (initRun txL rxL txe rxe).dev.txRing [] := by
      refine ⟨?_, ?_, ?_, ?_, fun i h => absurd h (by simp)⟩ <;>
        simp [initRun, SERIAL1_TX_BUFFER_SIZE]
    have hrx0 : RingQueue SERIAL1_RX_BUFFER_SIZE
        (initRun txL rxL txe rxe).dev.rxRing [] := by
      refine ⟨?_, ?_, ?_, ?_, fun i h => absurd h (by simp)⟩ <;>
        simp [initRun, SERIAL1_RX_BUFFER_SIZE]
    obtain ⟨txq, rxq, htxf, hrxf, hdf, hgf⟩ :=
      runOps_spec ops (initRun txL rxL txe rxe) [] [] r hv rfl htx0 hrx0 hrun
    refine ⟨txq, rxq, htxf, hrxf, ?_, ?_⟩
    · simpa [initRun] using hdf
    · simpa [initRun] using hgf

/-- Witness for `serial_fifo_law`: the hypotheses hold and the run
completes for a concrete trace on the base (extension-free) buffers. -/
theorem serial_fifo_law_witness :
    (∀ op ∈ fifoOps, OpValid op) ∧
    (runOps fifoOps (initRun 0 0 zeroFn zeroFn)).isSome = true ∧
    (match runOps fifoOps (initRun 0 0 zeroFn zeroFn) with
     | none => True
     | some r => ∃ txq rxq,
        RingQueue SERIAL1_TX_BUFFER_SIZE r.dev.txRing txq ∧
        RingQueue SERIAL1_RX_BUFFER_SIZE r.dev.rxRing rxq ∧
        r.dev.uart0_d_log ++ txq = txBytes fifoOps ∧
        r.got ++ rxq = rxBytes fifoOps) :=
  ⟨by decide, by decide, serial_fifo_law 0 0 zeroFn zeroFn fifoOps (by decide)⟩

/-- The wrap-to-zero increment always stays in range. -/
theorem wrapInc_lt (i total : Nat) (h : 0 < total) : wrapInc i total < total := by
  unfold wrapInc
  split
  · exact h
  · omega

/-- The two-branch occupancy computation used at both RTS call sites and
in `serial_available` equals the modular occupancy count, on in-range
indices. -/
theorem avail_eq_occupied (head tail total : Nat)
    (hh : head < total) (ht : tail < total) :
    (if head ≥ tail then head - tail else total + head - tail)
      = occupiedCount head tail total := by
  unfold occupiedCount
  by_cases hcase : head ≥ tail
  · rw [if_pos hcase]
    have h2 : total + head - tail = (head - tail) + total := by omega
    rw [h2, Nat.add_mod_right, Nat.mod_eq_of_lt (by omega)]
  · rw [if_neg hcase]
    rw [Nat.mod_eq_of_lt (by omega)]

/-- Draining into a full ring drops every unit: the ring and the local
head are unchanged. -/
theorem rxFifoDrain_full (tail : Nat) (r : RingBuf) (units : List Nat)
    (hfull : wrapInc r.head r.total = tail) :
    rxFifoDrain tail r r.head units = (r, r.head) := by
  induction units with
  | nil => rfl
  | cons n rest ih =>
    unfold rxFifoDrain
    rw [if_neg (fun h => h hfull)]
    exact ih

/-- The drain loop never changes the ring's total size. -/
theorem rxFifoDrain_total (tail : Nat) (units : List Nat) :
    ∀ (r : RingBuf) (head : Nat),
      (rxFifoDrain tail r head units).1.total = r.total := by
  induction units with
  | nil => intro r head; rfl
  | cons n rest ih =>
    intro r head
    simp only [rxFifoDrain]
    split
    · rw [ih]
      simp
    · exact ih r head

/-- The drain loop keeps the local head in range. -/
theorem rxFifoDrain_head_lt (tail : Nat) (units : List Nat) :
    ∀ (r : RingBuf) (head : Nat), head < r.total →
      (rxFifoDrain tail r head units).2 < r.total := by
  induction units with
  | nil => intro r head hh; exact hh
  | cons n rest ih =>
    intro r head hh
    have htot : 0 < r.total := Nat.lt_of_le_of_lt (Nat.zero_le _) hh
    simp only [rxFifoDrain]
    split
    · have h2 := ih (ringSet SERIAL1_RX_BUFFER_SIZE r (wrapInc head r.total) n)
        (wrapInc head r.total)
        (by rw [ringSet_total]; exact wrapInc_lt _ _ htot)
      rw [ringSet_total] at h2
      exact h2
    · exact ih r head hh

/-- C2: RX overflow-drop law.  On a full RX ring (advancing the head by
one modulo the total size hits the tail), a receive-ready interrupt in
the non-FIFO handler leaves the state entirely unchanged — head, tail,
occupied count and every buffered byte — silently dropping the incoming
unit with no error surfaced; and the FIFO-variant drain loop likewise
leaves the RX ring unchanged for every sequence of incoming units. -/
theorem rx_overflow_drop (s : SerialState) (n : Nat) (units : List Nat)
    (hfull : wrapInc s.rxRing.head s.rxRing.total = s.rxRing.tail) :
    uart0_status_isr s true false false n = s ∧
    (uart0_status_isr_fifo_rx s units).rxRing = s.rxRing := by
  constructor
  · unfold uart0_status_isr
    simp only [Bool.false_eq_true, and_false, if_false, eq_self_iff_true, if_true]
    rw [if_neg (fun h => h hfull)]
  · simp only [uart0_status_isr_fifo_rx]
    rw [rxFifoDrain_full s.rxRing.tail s.rxRing units hfull]
    by_cases hpin : s.rts_pin = true
    · simp only [hpin, eq_self_iff_true, if_true]
      split <;> split <;> rfl
    · simp only [hpin, Bool.false_eq_true, if_false]

/-- Witness for `rx_overflow_drop` on a concrete full ring. -/
theorem rx_overflow_drop_witness :
    uart0_status_isr exFull true false false 99 = exFull ∧
    (uart0_status_isr_fifo_rx exFull [99, 100]).rxRing = exFull.rxRing :=
  rx_overflow_drop exFull 99 [99, 100] (by decide)

/-- C3: asymmetric RTS watermark hysteresis.  With an RTS pin configured,
a successful `serial_getchar` sets the RTS level to asserted (0) exactly
when the recomputed RX occupancy is at or below the low watermark and
otherwise leaves the level unchanged (it never deasserts); the
FIFO-variant interrupt handler, after draining the incoming units, sets
the RTS level to deasserted (1) exactly when the resulting occupancy is
at or above the high watermark and otherwise leaves the level unchanged
(it never asserts). -/
theorem rts_watermark_hysteresis (s : SerialState) (units : List Nat)
    (hpin : s.rts_pin = true)
    (hh : s.rxRing.head < s.rxRing.total) (ht : s.rxRing.tail < s.rxRing.total)
    (hne : s.rxRing.head ≠ s.rxRing.tail) :
    ((serial_getchar s).2.rts_level =
      if occupiedCount s.rxRing.head ((s.rxRing.tail + 1) % s.rxRing.total)
          s.rxRing.total ≤ s.rts_low_watermark
      then 0 else s.rts_level) ∧
    ((uart0_status_isr_fifo_rx s units).rts_level =
      if occupiedCount
          (rxFifoDrain s.rxRing.tail s.rxRing s.rxRing.head units).2
          s.rxRing.tail s.rxRing.total ≥ s.rts_high_watermark
      then 1 else s.rts_level) := by
  have htot : 0 < s.rxRing.total := by omega
  constructor
  · have htlt : wrapInc s.rxRing.tail s.rxRing.total < s.rxRing.total :=
      wrapInc_lt _ _ htot
    have hav := avail_eq_occupied s.rxRing.head
      (wrapInc s.rxRing.tail s.rxRing.total) s.rxRing.total hh htlt
    unfold serial_getchar
    rw [if_neg hne]
    simp only [hpin, eq_self_iff_true, if_true]
    rw [hav, wrapInc_eq_mod _ _ ht]
    by_cases hc : occupiedCount s.rxRing.head
        ((s.rxRing.tail + 1) % s.rxRing.total) s.rxRing.total
        ≤ s.rts_low_watermark
    · rw [if_pos hc, if_pos hc]
    · rw [if_neg hc, if_neg hc]
  · have hdt := rxFifoDrain_total s.rxRing.tail units s.rxRing s.rxRing.head
    have hdh := rxFifoDrain_head_lt s.rxRing.tail units s.rxRing s.rxRing.head hh
    have hav := avail_eq_occupied
      (rxFifoDrain s.rxRing.tail s.rxRing s.rxRing.head units).2
      s.rxRing.tail s.rxRing.total hdh ht
    simp only [uart0_status_isr_fifo_rx]
    simp only [hpin, eq_self_iff_true, if_true]
    rw [hdt, hav]
    by_cases hc : occupiedCount
        (rxFifoDrain s.rxRing.tail s.rxRing s.rxRing.head units).2
        s.rxRing.tail s.rxRing.total ≥ s.rts_high_watermark
    · rw [if_pos hc, if_pos hc]
    · rw [if_neg hc, if_neg hc]

/-- Witness for `rts_watermark_hysteresis` on a concrete three-byte RX
ring with the RTS pin configured. -/
theorem rts_watermark_hysteresis_witness :
    ((serial_getchar exState).2.rts_level =
      if occupiedCount exState.rxRing.head
          ((exState.rxRing.tail + 1) % exState.rxRing.total)
          exState.rxRing.total ≤ exState.rts_low_watermark
      then 0 else exState.rts_level) ∧
    ((uart0_status_isr_fifo_rx exState [70]).rts_level =
      if occupiedCount
          (rxFifoDrain exState.rxRing.tail exState.rxRing
            exState.rxRing.head [70]).2
          exState.rxRing.tail exState.rxRing.total ≥ exState.rts_high_watermark
      then 1 else exState.rts_level) :=
  rts_watermark_hysteresis exState [70] rfl (by decide) (by decide) (by decide)

/-- Counterexample to C4 as stated: from the Active state with exactly one
pending TX byte, the transmit-ready handler pops the byte — the TX ring
becomes empty as a result — yet the interrupt enables remain
`C2_TX_ACTIVE`; they are not switched to `C2_TX_COMPLETING` in that
invocation. -/
theorem isr_tx_completing_counterexample :
    (uart0_status_isr exActive false true false 0).txRing.tail =
      (uart0_status_isr exActive false true false 0).txRing.head ∧
    (uart0_status_isr exActive false true false 0).uart0_c2 = C2_TX_ACTIVE ∧
    C2_TX_ACTIVE ≠ C2_TX_COMPLETING := by decide

/-- C4 (amended): interrupt state-machine transitions of the non-FIFO
handler.  On a transmit-ready event in the Active state with a non-empty
TX ring, the handler pops one unit into the data register and leaves the
interrupt enables at `C2_TX_ACTIVE` (even when that pop empties the
ring); on a transmit-ready event in the Active state with an empty TX
ring, it switches the enables from `C2_TX_ACTIVE` to `C2_TX_COMPLETING`
with no other change; on a transmit-complete event with the
transmit-complete interrupt enabled (`C2_TX_COMPLETING`), it clears
`transmitting`, deasserts the transmit-assert pin if one is configured,
and restores the enables to `C2_TX_INACTIVE`, which retains the receive
interrupt and disables both transmit interrupts. -/
theorem isr_state_transitions (s : SerialState) :
    (s.uart0_c2 = C2_TX_ACTIVE → s.txRing.head ≠ s.txRing.tail →
      (uart0_status_isr s false true false 0).uart0_d_log =
        s.uart0_d_log ++ [ringGet SERIAL1_TX_BUFFER_SIZE s.txRing
          (wrapInc s.txRing.tail s.txRing.total)] ∧
      (uart0_status_isr s false true false 0).txRing.tail =
        wrapInc s.txRing.tail s.txRing.total ∧
      (uart0_status_isr s false true false 0).txRing.head = s.txRing.head ∧
      (uart0_status_isr s false true false 0).uart0_c2 = C2_TX_ACTIVE) ∧
    (s.uart0_c2 = C2_TX_ACTIVE → s.txRing.head = s.txRing.tail →
      (uart0_status_isr s false true false 0).uart0_c2 = C2_TX_COMPLETING ∧
      (uart0_status_isr s false true false 0).txRing = s.txRing ∧
      (uart0_status_isr s false true false 0).uart0_d_log = s.uart0_d_log ∧
      (uart0_status_isr s false true false 0).transmitting = s.transmitting) ∧
    (∀ tdre : Bool, s.uart0_c2 = C2_TX_COMPLETING →
      (uart0_status_isr s false tdre true 0).transmitting = false ∧
      (s.transmit_pin = true →
        (uart0_status_isr s false tdre true 0).transmit_pin_level = 0) ∧
      (uart0_status_isr s false tdre true 0).uart0_c2 = C2_TX_INACTIVE) ∧
    (C2_TX_INACTIVE &&& UART_C2_RIE ≠ 0 ∧
     C2_TX_INACTIVE &&& UART_C2_TIE = 0 ∧
     C2_TX_INACTIVE &&& UART_C2_TCIE = 0) := by
  refine ⟨?_, ?_, ?_, by decide⟩
  · intro hc2 hne
    unfold uart0_status_isr
    simp only [Bool.false_eq_true, and_false, if_false, eq_self_iff_true,
      and_true, if_true]
    rw [hc2]
    rw [if_pos (by decide : C2_TX_ACTIVE &&& UART_C2_TIE ≠ 0)]
    rw [if_neg hne]
    exact ⟨rfl, rfl, rfl, rfl⟩
  · intro hc2 hempty
    unfold uart0_status_isr
    simp only [Bool.false_eq_true, and_false, if_false, eq_self_iff_true,
      and_true, if_true]
    rw [hc2]
    rw [if_pos (by decide : C2_TX_ACTIVE &&& UART_C2_TIE ≠ 0)]
    rw [if_pos hempty]
    exact ⟨rfl, rfl, rfl, rfl⟩
  · intro tdre hc2
    unfold uart0_status_isr
    simp only [Bool.false_eq_true, and_false, if_false, eq_self_iff_true,
      and_true, if_true]
    rw [hc2]
    rw [if_pos (by decide : C2_TX_COMPLETING &&& UART_C2_TCIE ≠ 0)]
    rw [if_neg (show ¬ (C2_TX_COMPLETING &&& UART_C2_TIE ≠ 0 ∧ tdre = true)
      from fun h => (by decide : ¬ C2_TX_COMPLETING &&& UART_C2_TIE ≠ 0) h.1)]
    by_cases hpin : s.transmit_pin = true
    · simp [hpin]
    · simp [hpin]

/-- Witness for `isr_state_transitions`: the three transitions observed
on concrete Active (non-empty and empty) and Completing states. -/
theorem isr_state_transitions_witness :
    (uart0_status_isr exActive false true false 0).txRing.tail =
      wrapInc exActive.txRing.tail exActive.txRing.total ∧
    (uart0_status_isr exActiveEmpty false true false 0).uart0_c2 =
      C2_TX_COMPLETING ∧
    (uart0_status_isr exCompleting false false true 0).transmitting = false ∧
    (uart0_status_isr exCompleting false false true 0).transmit_pin_level = 0 ∧
    (uart0_status_isr exCompleting false false true 0).uart0_c2 =
      C2_TX_INACTIVE :=
  ⟨((isr_state_transitions exActive).1 rfl (by decide)).2.1,
   ((isr_state_transitions exActiveEmpty).2.1 rfl (by decide)).1,
   ((isr_state_transitions exCompleting).2.2.1 false rfl).1,
   ((isr_state_transitions exCompleting).2.2.1 false rfl).2.1 rfl,
   ((isr_state_transitions exCompleting).2.2.1 false rfl).2.2⟩

/-- C5: occupancy/free identity.  `serial_available` returns the RX
occupancy `(head - tail) mod total` and `serial_write_buffer_free`
returns `total - 1 - ((head - tail) mod total)` for the TX ring (both are
pure functions of the state in this model, modifying nothing), and the
occupied count plus the free count equals `total_capacity - 1` on each
ring. -/
theorem occupied_free_identity (s : SerialState)
    (h1 : s.rxRing.head < s.rxRing.total) (h2 : s.rxRing.tail < s.rxRing.total)
    (h3 : s.txRing.head < s.txRing.total)
    (h4 : s.txRing.tail < s.txRing.total) :
    serial_available s =
      occupiedCount s.rxRing.head s.rxRing.tail s.rxRing.total ∧
    serial_write_buffer_free s = s.txRing.total - 1 -
      occupiedCount s.txRing.head s.txRing.tail s.txRing.total ∧
    occupiedCount s.txRing.head s.txRing.tail s.txRing.total +
      serial_write_buffer_free s = s.txRing.total - 1 ∧
    occupiedCount s.rxRing.head s.rxRing.tail s.rxRing.total +
      (s.rxRing.total - 1 -
        occupiedCount s.rxRing.head s.rxRing.tail s.rxRing.total) =
      s.rxRing.total - 1 := by
  have hoccT := (avail_eq_occupied s.txRing.head s.txRing.tail
    s.txRing.total h3 h4).symm
  have hoccR := (avail_eq_occupied s.rxRing.head s.rxRing.tail
    s.rxRing.total h1 h2).symm
  have hltR : occupiedCount s.rxRing.head s.rxRing.tail s.rxRing.total
      < s.rxRing.total := Nat.mod_lt _ (by omega)
  refine ⟨?_, ?_, ?_, by omega⟩
  · unfold serial_available
    exact avail_eq_occupied _ _ _ h1 h2
  · unfold serial_write_buffer_free
    rw [hoccT]
    by_cases hcase : s.txRing.head ≥ s.txRing.tail
    · rw [if_pos hcase, if_pos hcase]
      omega
    · rw [if_neg hcase, if_neg hcase]
      omega
  · unfold serial_write_buffer_free
    rw [hoccT]
    by_cases hcase : s.txRing.head ≥ s.txRing.tail
    · rw [if_pos hcase, if_pos hcase]
      omega
    · rw [if_neg hcase, if_neg hcase]
      omega

/-- Witness for `occupied_free_identity` at a concrete state (RX head 3,
tail 0; TX empty; totals 64). -/
theorem occupied_free_identity_witness :
    serial_available exState =
      occupiedCount exState.rxRing.head exState.rxRing.tail
        exState.rxRing.total ∧
    occupiedCount exState.txRing.head exState.txRing.tail
        exState.txRing.total + serial_write_buffer_free exState =
      exState.txRing.total - 1 :=
  ⟨(occupied_free_identity exState (by decide) (by decide) (by decide)
      (by decide)).1,
   (occupied_free_identity exState (by decide) (by decide) (by decide)
      (by decide)).2.2.1⟩

/-- Counterexample to C6 as stated: calling
`serial_add_memory_for_read(NULL, 5)` does revert the total capacity, but
sets both watermarks to their base values plus 5, not back to the base
values — the watermark assignments are unconditional on the buffer. -/
theorem add_memory_null_watermark_counterexample :
    (serial_add_memory_for_read exState none 5).rxRing.total =
      SERIAL1_RX_BUFFER_SIZE ∧
    (serial_add_memory_for_read exState none 5).rts_low_watermark ≠
      RTS_LOW_WATERMARK ∧
    (serial_add_memory_for_read exState none 5).rts_high_watermark ≠
      RTS_HIGH_WATERMARK := by decide

/-- C6 (amended): `serial_add_memory_for_read(buffer, L)` with a non-null
buffer sets the total RX capacity to base capacity + L and both RTS
watermarks to their base values + L; with a null buffer it reverts the
total capacity to the base capacity, but still sets both watermarks to
base + L (so the watermarks revert to their base values exactly when
L = 0). -/
theorem serial_add_memory_for_read_spec (s : SerialState) (b : Nat → Nat)
    (L : Nat) :
    ((serial_add_memory_for_read s (some b) L).rxRing.total =
        SERIAL1_RX_BUFFER_SIZE + L ∧
      (serial_add_memory_for_read s (some b) L).rts_low_watermark =
        RTS_LOW_WATERMARK + L ∧
      (serial_add_memory_for_read s (some b) L).rts_high_watermark =
        RTS_HIGH_WATERMARK + L ∧
      (serial_add_memory_for_read s (some b) L).rxRing.ext = b) ∧
    ((serial_add_memory_for_read s none L).rxRing.total =
        SERIAL1_RX_BUFFER_SIZE ∧
      (serial_add_memory_for_read s none L).rts_low_watermark =
        RTS_LOW_WATERMARK + L ∧
      (serial_add_memory_for_read s none L).rts_high_watermark =
        RTS_HIGH_WATERMARK + L) :=
  ⟨⟨rfl, rfl, rfl, rfl⟩, rfl, rfl, rfl⟩

/-- C7: `serial_getchar` on an empty RX ring (head = tail) returns `-1`
and leaves the whole state — indices, buffers, RTS pin — unchanged; on a
non-empty ring it returns the unit at the advanced tail
`(tail + 1) mod total` and advances the tail to that index, leaving the
head and the buffer contents unchanged. -/
theorem serial_getchar_pop_spec (s : SerialState)
    (ht : s.rxRing.tail < s.rxRing.total) :
    (s.rxRing.head = s.rxRing.tail → serial_getchar s = (-1, s)) ∧
    (s.rxRing.head ≠ s.rxRing.tail →
      (serial_getchar s).1 = Int.ofNat (ringGet SERIAL1_RX_BUFFER_SIZE
        s.rxRing ((s.rxRing.tail + 1) % s.rxRing.total)) ∧
      (serial_getchar s).2.rxRing.tail = (s.rxRing.tail + 1) % s.rxRing.total ∧
      (serial_getchar s).2.rxRing.head = s.rxRing.head ∧
      (serial_getchar s).2.rxRing.base = s.rxRing.base ∧
      (serial_getchar s).2.rxRing.ext = s.rxRing.ext) := by
  constructor
  · intro he
    unfold serial_getchar
    rw [if_pos he]
  · intro hne
    unfold serial_getchar
    rw [if_neg hne, wrapInc_eq_mod _ _ ht]
    refine ⟨?_, ?_, ?_, ?_, ?_⟩ <;>
    · by_cases hpin : s.rts_pin = true
      · simp only [hpin, eq_self_iff_true, if_true]
        try rfl
        try (split <;> split <;> rfl)
      · simp only [hpin, Bool.false_eq_true, if_false]
        try rfl

/-- Witness for `serial_getchar_pop_spec`: the empty case on a concrete
empty ring and the pop case on a concrete three-byte ring. -/
theorem serial_getchar_pop_witness :
    serial_getchar exEmpty = (-1, exEmpty) ∧
    (serial_getchar exState).2.rxRing.tail =
      (exState.rxRing.tail + 1) % exState.rxRing.total ∧
    (serial_getchar exState).1 = Int.ofNat (ringGet SERIAL1_RX_BUFFER_SIZE
      exState.rxRing ((exState.rxRing.tail + 1) % exState.rxRing.total)) :=
  ⟨(serial_getchar_pop_spec exEmpty (by decide)).1 rfl,
   ((serial_getchar_pop_spec exState (by decide)).2 (by decide)).2.1,
   ((serial_getchar_pop_spec exState (by decide)).2 (by decide)).1⟩

/-- Counterexample to C8 as stated: `serial_clear` does not set tail =
head leaving head unchanged; on a ring with head 3 and tail 0 it sets
head to 0 (head = tail assignment), so the head changes and the tail does
not become the old head. -/
theorem serial_clear_head_counterexample :
    (serial_clear exState).rxRing.head ≠ exState.rxRing.head ∧
    (serial_clear exState).rxRing.tail ≠ exState.rxRing.head := by decide

/-- C8 (amended): `serial_clear` empties the RX ring by setting head =
tail (the tail itself is unchanged; all pending input is dropped), if an
RTS pin is configured it immediately asserts RTS (level 0), and
afterwards `serial_available` returns 0. -/
theorem serial_clear_spec (s : SerialState) :
    (serial_clear s).rxRing.head = s.rxRing.tail ∧
    (serial_clear s).rxRing.tail = s.rxRing.tail ∧
    (s.rts_pin = true → (serial_clear s).rts_level = 0) ∧
    serial_available (serial_clear s) = 0 := by
  unfold serial_clear serial_available
  by_cases hpin : s.rts_pin = true
  · simp [hpin]
  · simp [hpin]

/-- Witness for `serial_clear_spec` on a concrete non-empty ring with an
RTS pin configured. -/
theorem serial_clear_spec_witness :
    (serial_clear exState).rxRing.head = exState.rxRing.tail ∧
    (serial_clear exState).rts_level = 0 ∧
    serial_available (serial_clear exState) = 0 :=
  ⟨(serial_clear_spec exState).1,
   (serial_clear_spec exState).2.2.1 rfl,
   (serial_clear_spec exState).2.2.2⟩

/-- C9: disabled-peripheral no-op.  With the UART0 clock-gate bit clear,
`serial_putchar` and `serial_write` (for every byte sequence) return
immediately with the state completely unchanged — TX ring head, tail and
contents, the `transmitting` flag, the transmit-assert pin and every
modelled register — and no error is reported. -/
theorem disabled_peripheral_noop (s : SerialState) (c : Nat)
    (bytes : List Nat) (h : s.sim_scgc4_uart0 = false) :
    serial_putchar s c = some s ∧ serial_write s bytes = some s := by
  have hp : ∀ b : Nat, serial_putchar s b = some s := by
    intro b
    unfold serial_putchar
    rw [if_pos h]
  refine ⟨hp c, ?_⟩
  induction bytes with
  | nil => rfl
  | cons b rest ih =>
    show (serial_putchar s b).bind (fun s1 => serial_write s1 rest) = some s
    rw [hp b]
    simpa using ih

/-- Witness for `disabled_peripheral_noop` on a concrete clock-off state. -/
theorem disabled_peripheral_noop_witness :
    serial_putchar exOff 65 = some exOff ∧
    serial_write exOff [1, 2, 3] = some exOff :=
  disabled_peripheral_noop exOff 65 [1, 2, 3] rfl

/-- C10: for every NUL-terminated string, `serial_print` performs exactly
the `serial_putchar` calls of `serial_write` applied to the string's
characters (cut at the first NUL) with a carriage return inserted
immediately before every newline; all other characters pass through
unchanged and nothing is sent after the NUL. -/
theorem serial_print_crlf (s : SerialState) (cs : List Nat) :
    serial_print s cs = serial_write s (crlfExpand cs) := by
  induction cs generalizing s with
  | nil => rfl
  | cons c rest ih =>
    simp only [serial_print, crlfExpand]
    by_cases h0 : c = 0
    · simp [h0, serial_write]
    · simp only [h0, if_false]
      by_cases h10 : c = 10
      · simp only [h10, eq_self_iff_true, if_true]
        rw [serial_write]
        cases hp : serial_putchar s 13 with
        | none => simp
        | some s1 =>
          simp only [Option.some_bind]
          rw [serial_write]
          cases hp2 : serial_putchar s1 10 with
          | none => simp
          | some s2 => simp [ih]
      · simp only [h10, if_false]
        rw [serial_write]
        cases hp : serial_putchar s c with
        | none => simp
        | some s1 => simp [ih]
